import Mathlib

set_option maxRecDepth 10000

/-!
Verification of the Ultimate Tic-Tac-Toe rules engine
(`src/utttrlsim/board.py`) against its natural-language specification.

The Python module is shallowly embedded: the `Player` enum, the `Position`
coordinate codec, and the mutable `UltimateTicTacToeBoard` (grid,
current player, last move) become Lean data; the in-place mutation of
`make_move` becomes explicit state passing (the function returns the new
state together with an optional error, the error cases mirroring the
`RuntimeError` / `ValueError` raised by the Python code, which raises
before any mutation, so the error branches carry the unchanged state).
-/

/-- The `Player` enumeration of `board.py` (EMPTY = 0, X = 1, O = 2). -/
inductive Player where
| EMPTY : Player
| X : Player
| O : Player
deriving DecidableEq

/-- `Position`: one of the 81 cells, canonically the global index 0..80
(`self._id` in the Python class). -/
structure Position where
  board_id : Fin 81
deriving DecidableEq

namespace Position

/-- `board_x` property: `self._id % 9`. -/
def board_x (p : Position) : Nat := p.board_id.val % 9

/-- `board_y` property: `self._id // 9`. -/
def board_y (p : Position) : Nat := p.board_id.val / 9

/-- `sub_grid_x` property: `self.board_x // 3`. -/
def sub_grid_x (p : Position) : Nat := p.board_x / 3

/-- `sub_grid_y` property: `self.board_y // 3`. -/
def sub_grid_y (p : Position) : Nat := p.board_y / 3

/-- `sub_grid_id` property: `self.sub_grid_x + self.sub_grid_y * 3`. -/
def sub_grid_id (p : Position) : Nat := p.sub_grid_x + p.sub_grid_y * 3

/-- `cell_x` property: `self.board_x % 3`. -/
def cell_x (p : Position) : Nat := p.board_x % 3

/-- `cell_y` property: `self.board_y % 3`. -/
def cell_y (p : Position) : Nat := p.board_y % 3

/-- `cell_id` property: `self.cell_x + self.cell_y * 3`. -/
def cell_id (p : Position) : Nat := p.cell_x + p.cell_y * 3

theorem board_x_lt (p : Position) : p.board_x < 9 := by
  simp only [board_x]; omega

theorem board_y_lt (p : Position) : p.board_y < 9 := by
  have h := p.board_id.isLt
  simp only [board_y]; omega

theorem sub_grid_x_lt (p : Position) : p.sub_grid_x < 3 := by
  simp only [sub_grid_x, board_x]; omega

theorem sub_grid_y_lt (p : Position) : p.sub_grid_y < 3 := by
  have h := p.board_id.isLt
  simp only [sub_grid_y, board_y]; omega

theorem cell_x_lt (p : Position) : p.cell_x < 3 := by
  simp only [cell_x, board_x]; omega

theorem cell_y_lt (p : Position) : p.cell_y < 3 := by
  simp only [cell_y, board_y]; omega

/-- `board_x` as a `Fin 9` index into the numpy array. -/
def board_xF (p : Position) : Fin 9 := ⟨p.board_x, p.board_x_lt⟩

/-- `board_y` as a `Fin 9` index into the numpy array. -/
def board_yF (p : Position) : Fin 9 := ⟨p.board_y, p.board_y_lt⟩

/-- `sub_grid_x` as a `Fin 3`. -/
def sub_grid_xF (p : Position) : Fin 3 := ⟨p.sub_grid_x, p.sub_grid_x_lt⟩

/-- `sub_grid_y` as a `Fin 3`. -/
def sub_grid_yF (p : Position) : Fin 3 := ⟨p.sub_grid_y, p.sub_grid_y_lt⟩

/-- `cell_x` as a `Fin 3`. -/
def cell_xF (p : Position) : Fin 3 := ⟨p.cell_x, p.cell_x_lt⟩

/-- `cell_y` as a `Fin 3`. -/
def cell_yF (p : Position) : Fin 3 := ⟨p.cell_y, p.cell_y_lt⟩

/-- `Position(board_id)` constructor path: asserts `0 <= board_id < 81`
(`AssertionError`, modelled as `none`, otherwise `some`). -/
def ofId (board_id : Nat) : Option Position :=
  if h : board_id < 81 then some ⟨⟨board_id, h⟩⟩ else none

/-- `Position(grid_x, grid_y, cell_x, cell_y)` constructor path: asserts each
coordinate is in 0..2, then sets
`self._id = (grid_x * 3 + cell_x) + (grid_y * 3 + cell_y) * 9`. -/
def ofCoords (grid_x grid_y cx cy : Nat) : Option Position :=
  if grid_x < 3 ∧ grid_y < 3 ∧ cx < 3 ∧ cy < 3 then
    ofId ((grid_x * 3 + cx) + (grid_y * 3 + cy) * 9)
  else none

end Position

/-- Total version of the four-coordinate constructor, for indices already
known to be in range (the same formula `(gx*3+cx) + (gy*3+cy)*9`). -/
def posOf (gx gy cx cy : Fin 3) : Position :=
  ⟨⟨(gx.val * 3 + cx.val) + (gy.val * 3 + cy.val) * 9, by
      have h1 := gx.isLt; have h2 := gy.isLt
      have h3 := cx.isLt; have h4 := cy.isLt
      omega⟩⟩

instance : Fintype Position :=
  Fintype.ofEquiv (Fin 81)
    ⟨fun i => ⟨i⟩, fun p => p.board_id, fun _ => rfl, fun _ => rfl⟩

/-- The state of `UltimateTicTacToeBoard`: the 9x9 numpy array `self._board`
(indexed `grid y x`, matching `self._board[y, x]`), `self._current_player`,
and `self._last_move`. -/
structure BoardState where
  grid : Fin 9 → Fin 9 → Player
  current_player : Player
  last_move : Option Position
deriving DecidableEq

/-- Read the grid cell addressed by a `Position`
(`self._board[position.board_y, position.board_x]`). -/
def cellAt (b : BoardState) (p : Position) : Player :=
  b.grid p.board_yF p.board_xF

/-- The 3x3 slice of the grid belonging to sub-board `(grid_x, grid_y)`:
`self._board[grid_y*3 : grid_y*3+3, grid_x*3 : grid_x*3+3]`, indexed
`(cy, cx)` like the numpy slice. -/
def subboard_slice (b : BoardState) (grid_x grid_y : Fin 3) :
    Fin 3 → Fin 3 → Player :=
  fun cy cx =>
    b.grid ⟨grid_y.val * 3 + cy.val, by have h1 := grid_y.isLt; have h2 := cy.isLt; omega⟩
           ⟨grid_x.val * 3 + cx.val, by have h1 := grid_x.isLt; have h2 := cx.isLt; omega⟩

/-- `_check_win_pattern_for_player`: 3 rows, 3 columns, the main diagonal
and the `np.fliplr` anti-diagonal of a 3x3 slice, all equal to `player`. -/
def check_win_pattern_for_player (board_slice : Fin 3 → Fin 3 → Player)
    (player : Player) : Bool :=
  (board_slice 0 0 == player && board_slice 0 1 == player && board_slice 0 2 == player) ||
  (board_slice 1 0 == player && board_slice 1 1 == player && board_slice 1 2 == player) ||
  (board_slice 2 0 == player && board_slice 2 1 == player && board_slice 2 2 == player) ||
  (board_slice 0 0 == player && board_slice 1 0 == player && board_slice 2 0 == player) ||
  (board_slice 0 1 == player && board_slice 1 1 == player && board_slice 2 1 == player) ||
  (board_slice 0 2 == player && board_slice 1 2 == player && board_slice 2 2 == player) ||
  (board_slice 0 0 == player && board_slice 1 1 == player && board_slice 2 2 == player) ||
  (board_slice 0 2 == player && board_slice 1 1 == player && board_slice 2 0 == player)

/-- The `subboard_winner` matrix entry at row `grid_y`, column `grid_x`
(the Python property fills `result[grid_y, grid_x]`, checking X first,
then O, else leaving EMPTY). -/
def subboard_winner (b : BoardState) (grid_y grid_x : Fin 3) : Player :=
  if check_win_pattern_for_player (subboard_slice b grid_x grid_y) Player.X = true then
    Player.X
  else if check_win_pattern_for_player (subboard_slice b grid_x grid_y) Player.O = true then
    Player.O
  else Player.EMPTY

/-- `_is_sub_board_full`: the slice contains no EMPTY cell
(`not np.any(sub_board_data == Player.EMPTY.value)`). -/
def is_sub_board_full (b : BoardState) (grid_x grid_y : Fin 3) : Bool :=
  decide (∀ cy cx : Fin 3, subboard_slice b grid_x grid_y cy cx ≠ Player.EMPTY)

/-- `game_over` property: meta win for X, or meta win for O, or the loop
over all sub-boards finds none that is both un-won
(`subboard_winner[i, j] == EMPTY`) and not full (`not full(j, i)`). -/
def game_over (b : BoardState) : Bool :=
  check_win_pattern_for_player (fun i j => subboard_winner b i j) Player.X ||
  check_win_pattern_for_player (fun i j => subboard_winner b i j) Player.O ||
  decide (∀ i j : Fin 3,
    ¬(subboard_winner b i j = Player.EMPTY ∧ is_sub_board_full b j i = false))

/-- `get_legal_moves`.

The Python builds a `set` by loops; each branch enumerates exactly the
positions satisfying a predicate, rendered here with `Finset.filter`:
* `last_move is None`: all 81 positions (the Python also asserts the grid
  is entirely empty in this branch; the assertion does not change the
  returned set when it passes, and the invariant-preserving theorems below
  carry the corresponding emptiness hypothesis explicitly);
* target sub-board `(last.cell_x, last.cell_y)` available (winner EMPTY
  and not full): the loop over `cell_id in range(9)` adds exactly the
  positions of that sub-board whose grid cell is EMPTY;
* otherwise: the loop over all `(sub_grid_x, sub_grid_y)` skips won-or-full
  sub-boards and adds the EMPTY cells of every remaining sub-board. -/
def get_legal_moves (b : BoardState) : Finset Position :=
  match b.last_move with
  | none => Finset.univ
  | some last =>
    if subboard_winner b last.cell_yF last.cell_xF = Player.EMPTY ∧
       is_sub_board_full b last.cell_xF last.cell_yF = false then
      Finset.univ.filter (fun cell =>
        cell.sub_grid_x = last.cell_x ∧ cell.sub_grid_y = last.cell_y ∧
        cellAt b cell = Player.EMPTY)
    else
      Finset.univ.filter (fun cell =>
        subboard_winner b cell.sub_grid_yF cell.sub_grid_xF = Player.EMPTY ∧
        is_sub_board_full b cell.sub_grid_xF cell.sub_grid_yF = false ∧
        cellAt b cell = Player.EMPTY)

/-- The two exceptions `make_move` can raise: `RuntimeError` ("game is
already over") and `ValueError` ("not in legal moves"). -/
inductive MoveError where
| GameAlreadyOver : MoveError
| IllegalMove : MoveError
deriving DecidableEq

/-- The state after the mutation block of `make_move`: the current
player's mark is written at `self._board[position.board_y,
position.board_x]`, `self._last_move = position`, and the player switches
(`Player.O if self._current_player == Player.X else Player.X`). -/
def move_result (b : BoardState) (position : Position) : BoardState :=
  ⟨fun y x =>
      if y.val = position.board_y ∧ x.val = position.board_x then
        b.current_player
      else b.grid y x,
    (if b.current_player = Player.X then Player.O else Player.X),
    some position⟩

/-- `make_move`: validate (game over first, then legality), then perform
the mutation block (`move_result`).  The Python raises before any
mutation, so both error results carry the unchanged state. -/
def make_move (b : BoardState) (position : Position) :
    BoardState × Option MoveError :=
  if game_over b = true then
    (b, some MoveError.GameAlreadyOver)
  else if position ∈ get_legal_moves b then
    (move_result b position, none)
  else
    (b, some MoveError.IllegalMove)

/-- `reset(current_player = Player.X)`: fills the grid with EMPTY, sets
`self._current_player = Player.X` (note: the Python body ignores its
`current_player` argument), and clears `last_move`. -/
def reset (b : BoardState) (current_player : Player) : BoardState :=
  ⟨fun _ _ => Player.EMPTY, Player.X, none⟩

/-- `copy()`: a new board whose array is `self._board.copy()` and whose
other two fields are the same values; under the value semantics of the
embedding this is a field-wise snapshot. -/
def copy (b : BoardState) : BoardState :=
  ⟨b.grid, b.current_player, b.last_move⟩

/-- The state built by `UltimateTicTacToeBoard()`: empty grid, X to move,
no last move. -/
def initial_board : BoardState :=
  ⟨fun _ _ => Player.EMPTY, Player.X, none⟩

/-- States reachable from the initial empty board by successful
`make_move` calls. -/
inductive Reachable : BoardState → Prop where
| init : Reachable initial_board
| step : ∀ {b b2 : BoardState} {p : Position},
    Reachable b → make_move b p = (b2, none) → Reachable b2

/-- Apply a list of moves in order, keeping the state of each call
(whether or not it succeeded; `playOk` below records success). -/
def play (b : BoardState) : List Position → BoardState
| [] => b
| p :: rest => play (make_move b p).1 rest

/-- All moves in the list succeed when applied in order from `b`. -/
def playOk (b : BoardState) : List Position → Bool
| [] => true
| p :: rest => (make_move b p).2 == none && playOk (make_move b p).1 rest

theorem play_reachable : ∀ (ms : List Position) (b : BoardState),
    Reachable b → playOk b ms = true → Reachable (play b ms) := by
  intro ms
  induction ms with
  | nil => intro b hb _; exact hb
  | cons p rest ih =>
    intro b hb hok
    simp only [playOk, Bool.and_eq_true, beq_iff_eq] at hok
    refine ih (make_move b p).1 ?_ hok.2
    exact Reachable.step hb (by rw [Prod.mk.injEq]; exact ⟨rfl, hok.1⟩)

/-! ### Coordinate algebra of `posOf` -/

theorem posOf_sub_grid_x : ∀ gx gy cx cy : Fin 3,
    (posOf gx gy cx cy).sub_grid_x = gx.val := by decide

theorem posOf_sub_grid_y : ∀ gx gy cx cy : Fin 3,
    (posOf gx gy cx cy).sub_grid_y = gy.val := by decide

theorem posOf_sub_grid_xF : ∀ gx gy cx cy : Fin 3,
    (posOf gx gy cx cy).sub_grid_xF = gx := by decide

theorem posOf_sub_grid_yF : ∀ gx gy cx cy : Fin 3,
    (posOf gx gy cx cy).sub_grid_yF = gy := by decide

theorem cellAt_posOf (b : BoardState) (gx gy cx cy : Fin 3) :
    cellAt b (posOf gx gy cx cy) = subboard_slice b gx gy cy cx := by
  have h1 := gx.isLt; have h2 := gy.isLt
  have h3 := cx.isLt; have h4 := cy.isLt
  have ey : (posOf gx gy cx cy).board_yF =
      (⟨gy.val * 3 + cy.val, by omega⟩ : Fin 9) := by
    apply Fin.ext
    show ((gx.val * 3 + cx.val) + (gy.val * 3 + cy.val) * 9) / 9 =
      gy.val * 3 + cy.val
    omega
  have ex : (posOf gx gy cx cy).board_xF =
      (⟨gx.val * 3 + cx.val, by omega⟩ : Fin 9) := by
    apply Fin.ext
    show ((gx.val * 3 + cx.val) + (gy.val * 3 + cy.val) * 9) % 9 =
      gx.val * 3 + cx.val
    omega
  unfold cellAt subboard_slice
  rw [ey, ex]

/-- Any cell read through a `Position` is the corresponding entry of its
sub-board's slice (the relationship invariant `board_x = 3*sub_grid_x +
cell_x`, `board_y = 3*sub_grid_y + cell_y`). -/
theorem cellAt_eq_slice (b : BoardState) (p : Position) :
    cellAt b p = subboard_slice b p.sub_grid_xF p.sub_grid_yF p.cell_yF p.cell_xF := by
  have ey : p.board_yF =
      (⟨p.sub_grid_yF.val * 3 + p.cell_yF.val, by
          have h1 := p.sub_grid_y_lt; have h2 := p.cell_y_lt; omega⟩ : Fin 9) := by
    apply Fin.ext
    show p.board_id.val / 9 = (p.board_id.val / 9) / 3 * 3 + (p.board_id.val / 9) % 3
    omega
  have ex : p.board_xF =
      (⟨p.sub_grid_xF.val * 3 + p.cell_xF.val, by
          have h1 := p.sub_grid_x_lt; have h2 := p.cell_x_lt; omega⟩ : Fin 9) := by
    apply Fin.ext
    show p.board_id.val % 9 = (p.board_id.val % 9) / 3 * 3 + (p.board_id.val % 9) % 3
    omega
  unfold cellAt subboard_slice
  rw [ey, ex]

/-! ### Characterizations of `get_legal_moves` -/

theorem mem_legal_moves_none (b : BoardState) (h : b.last_move = none)
    (p : Position) : p ∈ get_legal_moves b := by
  unfold get_legal_moves
  rw [h]
  exact Finset.mem_univ p

theorem mem_legal_moves_target (b : BoardState) (m p : Position)
    (h : b.last_move = some m)
    (hc : subboard_winner b m.cell_yF m.cell_xF = Player.EMPTY ∧
          is_sub_board_full b m.cell_xF m.cell_yF = false) :
    p ∈ get_legal_moves b ↔
      (p.sub_grid_x = m.cell_x ∧ p.sub_grid_y = m.cell_y ∧
       cellAt b p = Player.EMPTY) := by
  unfold get_legal_moves
  rw [h]
  show p ∈ (if _ then _ else _) ↔ _
  rw [if_pos hc]
  simp [Finset.mem_filter]

theorem mem_legal_moves_free (b : BoardState) (m p : Position)
    (h : b.last_move = some m)
    (hc : ¬(subboard_winner b m.cell_yF m.cell_xF = Player.EMPTY ∧
            is_sub_board_full b m.cell_xF m.cell_yF = false)) :
    p ∈ get_legal_moves b ↔
      (subboard_winner b p.sub_grid_yF p.sub_grid_xF = Player.EMPTY ∧
       is_sub_board_full b p.sub_grid_xF p.sub_grid_yF = false ∧
       cellAt b p = Player.EMPTY) := by
  unfold get_legal_moves
  rw [h]
  show p ∈ (if _ then _ else _) ↔ _
  rw [if_neg hc]
  simp [Finset.mem_filter]

/-- Every legal move addresses an EMPTY cell (under the emptiness
precondition that the Python `assert` enforces in the first-move branch). -/
theorem legal_cell_empty (b : BoardState) (p : Position)
    (hempty : b.last_move = none → ∀ y x : Fin 9, b.grid y x = Player.EMPTY)
    (hp : p ∈ get_legal_moves b) : cellAt b p = Player.EMPTY := by
  cases hl : b.last_move with
  | none => exact hempty hl p.board_yF p.board_xF
  | some m =>
    by_cases hc : subboard_winner b m.cell_yF m.cell_xF = Player.EMPTY ∧
        is_sub_board_full b m.cell_xF m.cell_yF = false
    · exact ((mem_legal_moves_target b m p hl hc).mp hp).2.2
    · exact ((mem_legal_moves_free b m p hl hc).mp hp).2.2

/-- After the first move, every legal move lies in a sub-board whose
recorded winner is EMPTY. -/
theorem legal_own_winner_empty (b : BoardState) (m p : Position)
    (h : b.last_move = some m) (hp : p ∈ get_legal_moves b) :
    subboard_winner b p.sub_grid_yF p.sub_grid_xF = Player.EMPTY := by
  by_cases hc : subboard_winner b m.cell_yF m.cell_xF = Player.EMPTY ∧
      is_sub_board_full b m.cell_xF m.cell_yF = false
  · obtain ⟨h1, h2, _⟩ := (mem_legal_moves_target b m p h hc).mp hp
    have ex : p.sub_grid_xF = m.cell_xF := Fin.ext h1
    have ey : p.sub_grid_yF = m.cell_yF := Fin.ext h2
    rw [ex, ey]
    exact hc.1
  · exact ((mem_legal_moves_free b m p h hc).mp hp).1

/-- A sub-board that is not full has an EMPTY cell. -/
theorem not_full_exists_empty (b : BoardState) (gx gy : Fin 3)
    (h : is_sub_board_full b gx gy = false) :
    ∃ cy cx : Fin 3, subboard_slice b gx gy cy cx = Player.EMPTY := by
  unfold is_sub_board_full at h
  rw [decide_eq_false_iff_not] at h
  push_neg at h
  exact h

/-! ### Characterizations of `make_move` and frame lemmas -/

theorem make_move_ok_iff (b : BoardState) (p : Position) (b2 : BoardState) :
    make_move b p = (b2, none) ↔
      (game_over b = false ∧ p ∈ get_legal_moves b ∧ b2 = move_result b p) := by
  unfold make_move
  by_cases h1 : game_over b = true
  · rw [if_pos h1]
    constructor
    · intro he; exact absurd (congrArg Prod.snd he) (by simp)
    · rintro ⟨hov, _, _⟩; rw [h1] at hov; exact absurd hov (by simp)
  · rw [if_neg h1]
    have hov : game_over b = false := by
      cases hg : game_over b
      · rfl
      · exact absurd hg h1
    by_cases h2 : p ∈ get_legal_moves b
    · rw [if_pos h2]
      constructor
      · intro he
        have hfst := congrArg Prod.fst he
        exact ⟨hov, h2, hfst.symm⟩
      · rintro ⟨_, _, hb2⟩; rw [hb2]
    · rw [if_neg h2]
      constructor
      · intro he; exact absurd (congrArg Prod.snd he) (by simp)
      · rintro ⟨_, hp, _⟩; exact absurd hp h2

theorem move_result_cellAt (b : BoardState) (p : Position) :
    cellAt (move_result b p) p = b.current_player := by
  simp only [cellAt, move_result]
  rw [if_pos ⟨rfl, rfl⟩]

theorem move_result_frame (b : BoardState) (p : Position) (y x : Fin 9)
    (h : ¬(y.val = p.board_y ∧ x.val = p.board_x)) :
    (move_result b p).grid y x = b.grid y x := by
  simp only [move_result]
  rw [if_neg h]

/-- Writing into a cell of a different sub-board leaves the slice of
`(gx, gy)` unchanged. -/
theorem move_result_slice_ne (b : BoardState) (p : Position) (gx gy : Fin 3)
    (h : ¬(p.sub_grid_x = gx.val ∧ p.sub_grid_y = gy.val)) :
    subboard_slice (move_result b p) gx gy = subboard_slice b gx gy := by
  funext cy cx
  simp only [subboard_slice, move_result]
  refine if_neg fun hc => h ⟨?_, ?_⟩
  · have e2n : gx.val * 3 + cx.val = p.board_x := hc.2
    have g1 : p.sub_grid_x = p.board_x / 3 := rfl
    have h4 := cx.isLt
    omega
  · have e1n : gy.val * 3 + cy.val = p.board_y := hc.1
    have g2 : p.sub_grid_y = p.board_y / 3 := rfl
    have h3 := cy.isLt
    omega

/-- The recorded winner of a sub-board depends only on its slice. -/
theorem subboard_winner_congr (b1 b2 : BoardState) (gy gx : Fin 3)
    (h : subboard_slice b1 gx gy = subboard_slice b2 gx gy) :
    subboard_winner b1 gy gx = subboard_winner b2 gy gx := by
  unfold subboard_winner
  rw [h]

/-- On an entirely empty grid no sub-board has a recorded winner. -/
theorem subboard_winner_of_empty (b : BoardState)
    (h : ∀ y x : Fin 9, b.grid y x = Player.EMPTY) (gy gx : Fin 3) :
    subboard_winner b gy gx = Player.EMPTY := by
  have hs : subboard_slice b gx gy = fun _ _ => Player.EMPTY := by
    funext cy cx
    exact h _ _
  unfold subboard_winner
  rw [hs]
  decide

/-! ### Invariants of reachable states -/

theorem reachable_current (b : BoardState) (h : Reachable b) :
    b.current_player = Player.X ∨ b.current_player = Player.O := by
  induction h with
  | init => exact Or.inl rfl
  | @step b b2 p hb hm ih =>
    obtain ⟨_, _, hb2⟩ := (make_move_ok_iff b p b2).mp hm
    rw [hb2]
    by_cases hx : b.current_player = Player.X
    · refine Or.inr ?_
      show (if b.current_player = Player.X then Player.O else Player.X) = Player.O
      rw [if_pos hx]
    · refine Or.inl ?_
      show (if b.current_player = Player.X then Player.O else Player.X) = Player.X
      rw [if_neg hx]

theorem reachable_none_empty (b : BoardState) (h : Reachable b) :
    b.last_move = none → ∀ y x : Fin 9, b.grid y x = Player.EMPTY := by
  induction h with
  | init => intro _ y x; rfl
  | @step b b2 p hb hm ih =>
    intro hl
    obtain ⟨_, _, hb2⟩ := (make_move_ok_iff b p b2).mp hm
    rw [hb2] at hl
    simp [move_result] at hl

/-! ### The 8-line test, spelled as in the specification -/

theorem forall_fin3 {P : Fin 3 → Prop} (h0 : P 0) (h1 : P 1) (h2 : P 2) :
    ∀ i, P i := by
  intro i
  fin_cases i <;> assumption

/-- The "8 canonical lines" test of the specification: some of the 3 rows,
3 columns, or 2 diagonals of a 3x3 slice consists entirely of `pl`. -/
def eight_line_test (s : Fin 3 → Fin 3 → Player) (pl : Player) : Prop :=
  (∃ r : Fin 3, ∀ c : Fin 3, s r c = pl) ∨
  (∃ c : Fin 3, ∀ r : Fin 3, s r c = pl) ∨
  (∀ i : Fin 3, s i i = pl) ∨
  (∀ i : Fin 3, s i ⟨2 - i.val, by omega⟩ = pl)

theorem check_win_iff (s : Fin 3 → Fin 3 → Player) (pl : Player) :
    check_win_pattern_for_player s pl = true ↔ eight_line_test s pl := by
  constructor
  · intro h
    simp only [check_win_pattern_for_player, Bool.or_eq_true, Bool.and_eq_true,
      beq_iff_eq] at h
    rcases h with (((((((h | h) | h) | h) | h) | h) | h) | h)
    · exact Or.inl ⟨0, forall_fin3 h.1.1 h.1.2 h.2⟩
    · exact Or.inl ⟨1, forall_fin3 h.1.1 h.1.2 h.2⟩
    · exact Or.inl ⟨2, forall_fin3 h.1.1 h.1.2 h.2⟩
    · exact Or.inr (Or.inl ⟨0, forall_fin3 h.1.1 h.1.2 h.2⟩)
    · exact Or.inr (Or.inl ⟨1, forall_fin3 h.1.1 h.1.2 h.2⟩)
    · exact Or.inr (Or.inl ⟨2, forall_fin3 h.1.1 h.1.2 h.2⟩)
    · exact Or.inr (Or.inr (Or.inl (forall_fin3 h.1.1 h.1.2 h.2)))
    · exact Or.inr (Or.inr (Or.inr (forall_fin3 h.1.1 h.1.2 h.2)))
  · intro h
    simp only [check_win_pattern_for_player, Bool.or_eq_true, Bool.and_eq_true,
      beq_iff_eq]
    rcases h with ⟨r, hr⟩ | ⟨c, hc⟩ | hd | ha
    · fin_cases r
      · exact Or.inl (Or.inl (Or.inl (Or.inl (Or.inl (Or.inl (Or.inl ⟨⟨hr 0, hr 1⟩, hr 2⟩))))))
      · exact Or.inl (Or.inl (Or.inl (Or.inl (Or.inl (Or.inl (Or.inr ⟨⟨hr 0, hr 1⟩, hr 2⟩))))))
      · exact Or.inl (Or.inl (Or.inl (Or.inl (Or.inl (Or.inr ⟨⟨hr 0, hr 1⟩, hr 2⟩)))))
    · fin_cases c
      · exact Or.inl (Or.inl (Or.inl (Or.inl (Or.inr ⟨⟨hc 0, hc 1⟩, hc 2⟩))))
      · exact Or.inl (Or.inl (Or.inl (Or.inr ⟨⟨hc 0, hc 1⟩, hc 2⟩)))
      · exact Or.inl (Or.inl (Or.inr ⟨⟨hc 0, hc 1⟩, hc 2⟩))
    · exact Or.inl (Or.inr ⟨⟨hd 0, hd 1⟩, hd 2⟩)
    · exact Or.inr ⟨⟨ha 0, ha 1⟩, ha 2⟩

/-! ### Concrete states used as witnesses and counterexamples -/

/-- `Position(40)`: the centre cell, sub-board (1,1), cell (1,1). -/
def pos40 : Position := ⟨40⟩

/-- The state after `make_move(Position(40))` on a fresh board
(Scenario A / D of the specification). -/
def uttt_s1 : BoardState := (make_move initial_board pos40).1

/-- A legal 17-move game: X completes the middle row of sub-boards
(0,0), (1,0) and (2,0) in turn (winning each), O answers inside the
sub-board it is sent to, always sending X back; X's ninth move wins the
meta-board's top row while sub-board (2,1) still has empty cells. -/
def c2_moves : List Position :=
  [9, 27, 10, 30, 11, 34, 12, 28, 13, 31, 14, 35, 15, 29, 16, 32, 17].map
    (fun n : Fin 81 => ⟨n⟩)

/-- The terminal state of `c2_moves`: X has a meta win, yet the target
sub-board (2,1) is still available. -/
def gameC2 : BoardState := play initial_board c2_moves

/-- The first five moves of `c2_moves`: X has just won sub-board (0,0). -/
def c2_prefix : List Position := [9, 27, 10, 30, 11].map (fun n : Fin 81 => ⟨n⟩)

/-- The state after `c2_prefix`. -/
def uttt_b5 : BoardState := play initial_board c2_prefix

/-- The sixth move of the game: O plays cell (1,0) of sub-board (2,1). -/
def uttt_p6 : Position := ⟨34⟩

/-- The state after the sixth move. -/
def uttt_b6 : BoardState := (make_move uttt_b5 uttt_p6).1

/-- A terminal board for the absorbing-state witness: the whole top row
of the grid is X, so sub-boards (0,0), (1,0), (2,0) are all won by X and
the meta-board's top row is complete. -/
def terminal_demo : BoardState :=
  ⟨fun y x => if y.val = 0 then Player.X else Player.EMPTY,
   Player.O, some ⟨(2 : Fin 81)⟩⟩

/-! ### Claim theorems -/

/-- Claim C1: contrary to the claim, `reset` does NOT honour the requested
starting player.  Calling `reset` with `Player.O` does clear the grid and
`last_move`, but leaves `current_player = Player.X` (the Python body
hard-codes `Player.X`, ignoring its `current_player` argument), so the
claimed postcondition `current_player = p` fails for `p = O`. -/
theorem reset_ignores_requested_player (b : BoardState) :
    (∀ y x : Fin 9, (reset b Player.O).grid y x = Player.EMPTY) ∧
    (reset b Player.O).last_move = none ∧
    (reset b Player.O).current_player = Player.X ∧
    ¬(reset b Player.O).current_player = Player.O :=
  ⟨fun _ _ => rfl, rfl, rfl, fun h => Player.noConfusion h⟩

/-- Claim C4: once `game_over` holds, `make_move` on any position fails
with `GameAlreadyOver` (never `IllegalMove`) and leaves the state
terminal: the terminal state is absorbing. -/
theorem make_move_terminal_absorbing (b : BoardState) (p : Position)
    (h : game_over b = true) :
    make_move b p = (b, some MoveError.GameAlreadyOver) ∧
    ¬(make_move b p).2 = some MoveError.IllegalMove ∧
    game_over (make_move b p).1 = true := by
  have hmk : make_move b p = (b, some MoveError.GameAlreadyOver) := by
    unfold make_move
    rw [if_pos h]
  refine ⟨hmk, ?_, ?_⟩
  · rw [hmk]
    simp
  · rw [hmk]
    exact h

/-- Witness for C4 at a concrete terminal board and `Position(0)`. -/
theorem make_move_terminal_absorbing_witness :
    make_move terminal_demo ⟨(0 : Fin 81)⟩ =
      (terminal_demo, some MoveError.GameAlreadyOver) ∧
    ¬(make_move terminal_demo ⟨(0 : Fin 81)⟩).2 = some MoveError.IllegalMove ∧
    game_over (make_move terminal_demo ⟨(0 : Fin 81)⟩).1 = true :=
  make_move_terminal_absorbing terminal_demo ⟨(0 : Fin 81)⟩ (by decide)

/-- Claim C5: whenever `make_move` fails (with either error) the state is
left unmodified: grid, current player and last move are unchanged. -/
theorem make_move_failure_frame (b : BoardState) (p : Position) (e : MoveError)
    (h : (make_move b p).2 = some e) :
    (make_move b p).1.grid = b.grid ∧
    (make_move b p).1.current_player = b.current_player ∧
    (make_move b p).1.last_move = b.last_move := by
  unfold make_move at h ⊢
  by_cases h1 : game_over b = true
  · rw [if_pos h1]
    exact ⟨rfl, rfl, rfl⟩
  · rw [if_neg h1] at h ⊢
    by_cases h2 : p ∈ get_legal_moves b
    · rw [if_pos h2] at h
      exact absurd h (by simp)
    · rw [if_neg h2]
      exact ⟨rfl, rfl, rfl⟩

/-- Witness for C5: Scenario D — playing `Position(40)` twice; the second
call fails with `IllegalMove` and changes nothing. -/
theorem make_move_failure_frame_witness :
    (make_move uttt_s1 pos40).1.grid = uttt_s1.grid ∧
    (make_move uttt_s1 pos40).1.current_player = uttt_s1.current_player ∧
    (make_move uttt_s1 pos40).1.last_move = uttt_s1.last_move :=
  make_move_failure_frame uttt_s1 pos40 MoveError.IllegalMove (by decide)

/-- Claim C7: the coordinate codec round-trips in both directions: every
index 0..80 is recovered after decomposing into
`(sub_grid_x, sub_grid_y, cell_x, cell_y)` and reconstructing, and every
in-range coordinate quadruple is exactly recovered from the Position it
constructs. -/
theorem position_roundtrip :
    (∀ i : Fin 81,
      Position.ofCoords (Position.mk i).sub_grid_x (Position.mk i).sub_grid_y
        (Position.mk i).cell_x (Position.mk i).cell_y = some ⟨i⟩) ∧
    (∀ gx gy cx cy : Fin 3, ∃ p : Position,
      Position.ofCoords gx.val gy.val cx.val cy.val = some p ∧
      p.sub_grid_x = gx.val ∧ p.sub_grid_y = gy.val ∧
      p.cell_x = cx.val ∧ p.cell_y = cy.val) := by decide

/-- Claim C3: on a non-terminal board, any move from the legal set
succeeds; afterwards the grid holds the mover's mark at
`(board_y, board_x)`, every other cell is unchanged, `last_move` is the
move, and the current player has flipped X to O or O to X.  (The
hypothesis `hempty` is the precondition asserted by the Python first-move
branch; `hcp` is the data-model invariant that the player to move is X
or O.) -/
theorem make_move_success_spec (b : BoardState) (p : Position)
    (hempty : b.last_move = none → ∀ y x : Fin 9, b.grid y x = Player.EMPTY)
    (hover : game_over b = false)
    (hp : p ∈ get_legal_moves b)
    (hcp : b.current_player = Player.X ∨ b.current_player = Player.O) :
    (make_move b p).2 = none ∧
    cellAt (make_move b p).1 p = b.current_player ∧
    (∀ y x : Fin 9, ¬(y.val = p.board_y ∧ x.val = p.board_x) →
      (make_move b p).1.grid y x = b.grid y x) ∧
    (make_move b p).1.last_move = some p ∧
    ((b.current_player = Player.X ∧ (make_move b p).1.current_player = Player.O) ∨
     (b.current_player = Player.O ∧ (make_move b p).1.current_player = Player.X)) := by
  have hmk : make_move b p = (move_result b p, none) := by
    rw [make_move_ok_iff]
    exact ⟨hover, hp, rfl⟩
  rw [hmk]
  refine ⟨rfl, move_result_cellAt b p, ?_, rfl, ?_⟩
  · intro y x hyx
    exact move_result_frame b p y x hyx
  · rcases hcp with hx | ho
    · refine Or.inl ⟨hx, ?_⟩
      show (if b.current_player = Player.X then Player.O else Player.X) = Player.O
      rw [if_pos hx]
    · refine Or.inr ⟨ho, ?_⟩
      show (if b.current_player = Player.X then Player.O else Player.X) = Player.X
      rw [if_neg (by rw [ho]; exact fun hh => Player.noConfusion hh)]

/-- Witness for C3 at the fresh board and `Position(40)`. -/
theorem make_move_success_spec_witness :
    (make_move initial_board pos40).2 = none ∧
    cellAt (make_move initial_board pos40).1 pos40 = initial_board.current_player ∧
    (∀ y x : Fin 9, ¬(y.val = pos40.board_y ∧ x.val = pos40.board_x) →
      (make_move initial_board pos40).1.grid y x = initial_board.grid y x) ∧
    (make_move initial_board pos40).1.last_move = some pos40 ∧
    ((initial_board.current_player = Player.X ∧
        (make_move initial_board pos40).1.current_player = Player.O) ∨
     (initial_board.current_player = Player.O ∧
        (make_move initial_board pos40).1.current_player = Player.X)) :=
  make_move_success_spec initial_board pos40 (fun _ _ _ => rfl) (by decide)
    (by decide) (Or.inl rfl)

/-- Claim C6: if the last move sends to sub-board
`(last_move.cell_x, last_move.cell_y)` and that sub-board is available
(winner EMPTY, not full), the legal set is exactly the EMPTY cells of
that sub-board and contains no position outside it. -/
theorem legal_moves_exactly_target_subboard (b : BoardState) (m p : Position)
    (h : b.last_move = some m)
    (hw : subboard_winner b m.cell_yF m.cell_xF = Player.EMPTY)
    (hf : is_sub_board_full b m.cell_xF m.cell_yF = false) :
    p ∈ get_legal_moves b ↔
      (p.sub_grid_x = m.cell_x ∧ p.sub_grid_y = m.cell_y ∧
       cellAt b p = Player.EMPTY) :=
  mem_legal_moves_target b m p h ⟨hw, hf⟩

/-- Witness for C6: after `make_move(Position(40))` the target sub-board
is (1,1) and `Position(30)` (its cell (0,0)) is legal. -/
theorem legal_moves_exactly_target_subboard_witness :
    ⟨(30 : Fin 81)⟩ ∈ get_legal_moves uttt_s1 ↔
      ((⟨(30 : Fin 81)⟩ : Position).sub_grid_x = pos40.cell_x ∧
       (⟨(30 : Fin 81)⟩ : Position).sub_grid_y = pos40.cell_y ∧
       cellAt uttt_s1 ⟨(30 : Fin 81)⟩ = Player.EMPTY) :=
  legal_moves_exactly_target_subboard uttt_s1 pos40 ⟨(30 : Fin 81)⟩
    (by decide) (by decide) (by decide)

/-- Claim C8: `game_over` holds exactly when the 8-line test on the
`subboard_winner` matrix succeeds for X, or for O, or every sub-board is
won (winner not EMPTY) or full (no EMPTY cell in its slice). -/
theorem game_over_characterization (b : BoardState) :
    game_over b = true ↔
      (eight_line_test (fun gy gx => subboard_winner b gy gx) Player.X ∨
       eight_line_test (fun gy gx => subboard_winner b gy gx) Player.O ∨
       ∀ gx gy : Fin 3, ¬(subboard_winner b gy gx = Player.EMPTY) ∨
         ∀ cy cx : Fin 3, ¬(subboard_slice b gx gy cy cx = Player.EMPTY)) := by
  unfold game_over
  simp only [Bool.or_eq_true, decide_eq_true_eq]
  constructor
  · rintro ((h | h) | h)
    · exact Or.inl ((check_win_iff _ _).mp h)
    · exact Or.inr (Or.inl ((check_win_iff _ _).mp h))
    · refine Or.inr (Or.inr ?_)
      intro gx gy
      have hgy := h gy gx
      by_cases hwin : subboard_winner b gy gx = Player.EMPTY
      · refine Or.inr ?_
        have hfull : is_sub_board_full b gx gy = true := by
          cases hfv : is_sub_board_full b gx gy
          · exact absurd ⟨hwin, hfv⟩ hgy
          · rfl
        unfold is_sub_board_full at hfull
        exact of_decide_eq_true hfull
      · exact Or.inl hwin
  · rintro (h | h | h)
    · exact Or.inl (Or.inl ((check_win_iff _ _).mpr h))
    · exact Or.inl (Or.inr ((check_win_iff _ _).mpr h))
    · refine Or.inr ?_
      rintro i j ⟨hwin, hfull⟩
      rcases h j i with hne | hcells
      · exact hne hwin
      · rw [show is_sub_board_full b j i = true from decide_eq_true hcells] at hfull
        exact Bool.noConfusion hfull

/-- Counterexample to claim C2 as stated: `gameC2` is reachable by 17
successful moves from the empty board, `game_over` holds (X owns the
meta-board's top row), yet `get_legal_moves` is NOT empty — the target
sub-board (2,1) still has seven EMPTY cells, and `get_legal_moves` never
consults `game_over`. -/
theorem legal_moves_nonempty_at_game_over :
    Reachable gameC2 ∧ game_over gameC2 = true ∧
    ¬(get_legal_moves gameC2 = ∅) :=
  ⟨play_reachable c2_moves initial_board Reachable.init (by decide),
   by decide, by decide⟩

/-- Claim C2 (amended): past the first move, the legal set is empty
exactly when NO sub-board is available (every sub-board is won or full),
and in that case `game_over` holds; emptiness of the legal set is not
equivalent to `game_over` itself. -/
theorem legal_moves_empty_iff_no_available (b : BoardState) (m : Position)
    (h : b.last_move = some m) :
    (get_legal_moves b = ∅ ↔
      ∀ gx gy : Fin 3, ¬(subboard_winner b gy gx = Player.EMPTY ∧
        is_sub_board_full b gx gy = false)) ∧
    ((∀ gx gy : Fin 3, ¬(subboard_winner b gy gx = Player.EMPTY ∧
        is_sub_board_full b gx gy = false)) → game_over b = true) := by
  constructor
  · by_cases hc : subboard_winner b m.cell_yF m.cell_xF = Player.EMPTY ∧
        is_sub_board_full b m.cell_xF m.cell_yF = false
    · constructor
      · intro hemp
        obtain ⟨cy, cx, hcell⟩ := not_full_exists_empty b m.cell_xF m.cell_yF hc.2
        have hmem : posOf m.cell_xF m.cell_yF cx cy ∈ get_legal_moves b := by
          rw [mem_legal_moves_target b m _ h hc]
          refine ⟨posOf_sub_grid_x _ _ _ _, posOf_sub_grid_y _ _ _ _, ?_⟩
          rw [cellAt_posOf]
          exact hcell
        rw [hemp] at hmem
        exact absurd hmem (Finset.not_mem_empty _)
      · intro hall
        exact absurd hc (hall m.cell_xF m.cell_yF)
    · constructor
      · intro hemp gx gy hav
        obtain ⟨cy, cx, hcell⟩ := not_full_exists_empty b gx gy hav.2
        have hmem : posOf gx gy cx cy ∈ get_legal_moves b := by
          rw [mem_legal_moves_free b m _ h hc]
          refine ⟨?_, ?_, ?_⟩
          · rw [posOf_sub_grid_yF, posOf_sub_grid_xF]
            exact hav.1
          · rw [posOf_sub_grid_xF, posOf_sub_grid_yF]
            exact hav.2
          · rw [cellAt_posOf]
            exact hcell
        rw [hemp] at hmem
        exact absurd hmem (Finset.not_mem_empty _)
      · intro hall
        rw [Finset.eq_empty_iff_forall_not_mem]
        intro p hp
        rw [mem_legal_moves_free b m p h hc] at hp
        exact hall p.sub_grid_xF p.sub_grid_yF ⟨hp.1, hp.2.1⟩
  · intro hall
    unfold game_over
    simp only [Bool.or_eq_true, decide_eq_true_eq]
    refine Or.inr ?_
    intro i j hij
    exact hall j i hij

/-- Witness for the amended C2, at the state after one move. -/
theorem legal_moves_empty_iff_no_available_witness :
    (get_legal_moves uttt_s1 = ∅ ↔
      ∀ gx gy : Fin 3, ¬(subboard_winner uttt_s1 gy gx = Player.EMPTY ∧
        is_sub_board_full uttt_s1 gx gy = false)) ∧
    ((∀ gx gy : Fin 3, ¬(subboard_winner uttt_s1 gy gx = Player.EMPTY ∧
        is_sub_board_full uttt_s1 gx gy = false)) → game_over uttt_s1 = true) :=
  legal_moves_empty_iff_no_available uttt_s1 pos40 (by decide)

/-- Claim C9: `copy` is a field-wise snapshot (equal grid, current player
and last move), and a subsequent successful `make_move` on the original
does not affect the clone: the clone's cell at the move's position is
still EMPTY while the mutated original now holds the mover's non-EMPTY
mark there.  (In this embedding mutation returns a new state, which is
exactly the "no shared mutable storage" guarantee: the Python attains it
by `self._board.copy()`.) -/
theorem copy_snapshot_independent (b : BoardState) (p : Position)
    (b2 : BoardState) (hr : Reachable b) (hs : make_move b p = (b2, none)) :
    (copy b).grid = b.grid ∧
    (copy b).current_player = b.current_player ∧
    (copy b).last_move = b.last_move ∧
    cellAt (copy b) p = Player.EMPTY ∧
    cellAt b2 p = b.current_player ∧
    ¬(b.current_player = Player.EMPTY) := by
  obtain ⟨hov, hp, hb2⟩ := (make_move_ok_iff b p b2).mp hs
  refine ⟨rfl, rfl, rfl, ?_, ?_, ?_⟩
  · exact legal_cell_empty b p (reachable_none_empty b hr) hp
  · rw [hb2]
    exact move_result_cellAt b p
  · rcases reachable_current b hr with h | h <;> rw [h] <;>
      exact fun hh => Player.noConfusion hh

/-- Witness for C9 at the fresh board and `Position(40)`. -/
theorem copy_snapshot_independent_witness :
    (copy initial_board).grid = initial_board.grid ∧
    (copy initial_board).current_player = initial_board.current_player ∧
    (copy initial_board).last_move = initial_board.last_move ∧
    cellAt (copy initial_board) pos40 = Player.EMPTY ∧
    cellAt uttt_s1 pos40 = initial_board.current_player ∧
    ¬(initial_board.current_player = Player.EMPTY) :=
  copy_snapshot_independent initial_board pos40 uttt_s1 Reachable.init
    (by decide)

/-- Claim C10: under legal play a sub-board's recorded winner never
changes once set: if a reachable state records winner `pl` (X or O) for
sub-board `(gx, gy)` and a further `make_move` succeeds, the entry is
unchanged.  (The move's own sub-board always has winner EMPTY, so the
write lands outside `(gx, gy)` and the slice - hence the winner - is
untouched.) -/
theorem subboard_winner_persists (b : BoardState) (p : Position)
    (b2 : BoardState) (gx gy : Fin 3) (pl : Player)
    (hr : Reachable b) (hs : make_move b p = (b2, none))
    (hpl : ¬(pl = Player.EMPTY)) (hw : subboard_winner b gy gx = pl) :
    subboard_winner b2 gy gx = pl := by
  obtain ⟨hov, hp, hb2⟩ := (make_move_ok_iff b p b2).mp hs
  cases hl : b.last_move with
  | none =>
    have hempty := reachable_none_empty b hr hl
    rw [subboard_winner_of_empty b hempty gy gx] at hw
    exact absurd hw.symm hpl
  | some m =>
    have hown := legal_own_winner_empty b m p hl hp
    by_cases hco : p.sub_grid_x = gx.val ∧ p.sub_grid_y = gy.val
    · have e1 : p.sub_grid_xF = gx := Fin.ext hco.1
      have e2 : p.sub_grid_yF = gy := Fin.ext hco.2
      rw [e1, e2] at hown
      exact absurd (hown.symm.trans hw).symm hpl
    · rw [hb2]
      rw [subboard_winner_congr (move_result b p) b gy gx
        (move_result_slice_ne b p gx gy hco)]
      exact hw

/-- Witness for C10: after the five-move prefix X has won sub-board
(0,0); the sixth move (O in sub-board (2,1)) leaves that winner intact. -/
theorem subboard_winner_persists_witness :
    subboard_winner uttt_b6 0 0 = Player.X :=
  subboard_winner_persists uttt_b5 uttt_p6 uttt_b6 0 0 Player.X
    (play_reachable c2_prefix initial_board Reachable.init (by decide))
    (by decide) (by decide) (by decide)
